import Mathlib

/-!
Shallow embedding of
`src/perception/autoware_multi_object_tracker/src/debugger/debug_object.cpp`
(`autoware::multi_object_tracker::TrackerObjectDebugger`).

Modelling conventions:
* C++ `std::string` is modelled as `List Char` (so `pop_back` is `dropLast`,
  `substr(0, 6)` is `take 6`, `+=` is `++`).
* `boost::uuids::uuid` (16 bytes, compared lexicographically byte by byte) is
  modelled as its numeric big-endian value, a natural number; byte-lexicographic
  order on the 16-byte array coincides with numeric order of that value.
  `uuidToBoostUuid` (hex-encode then reparse) is the identity on the byte value,
  so it is not modelled separately.
* `double` probabilities are modelled as exact rationals `ℚ`;
  `static_cast<int>` on a `double` truncates toward zero (`cppTruncToInt`).
* C++ `int` indices are modelled as `ℤ`.
* fallible operations (`std::vector::at`, which throws on an out-of-range
  index, and unchecked `operator[]`, which is undefined behaviour out of
  range) are modelled in the `Option` monad: `none` is the error outcome.
* `std::unordered_map<int, int>::find` is modelled as a function
  `ℤ → Option ℤ`; the empty map is `fun idx => none`.
-/

/-- The 128-bit `boost::uuids::uuid` value (numeric big-endian reading of the
16 bytes; `operator<` is byte-lexicographic, i.e. numeric, order). -/
abbrev UUID := ℕ

/-- `geometry_msgs::msg::Point`, with exact rational coordinates. -/
structure Point3 where
  x : ℚ
  y : ℚ
  z : ℚ
deriving DecidableEq, Repr

/-- `std_msgs::msg::ColorRGBA`. -/
structure Color where
  r : ℚ
  g : ℚ
  b : ℚ
  a : ℚ
deriving DecidableEq, Repr

/-- `types::InputChannel` configuration entry; only its `short_name` field is
read by `debug_object.cpp`, so only that field is modelled. -/
structure InputChannel where
  short_name : List Char
deriving DecidableEq, Repr

/-- `TrackerObjectDebugger::ObjectData` (one observation record). -/
structure ObjectData where
  time : ℤ
  uuid : UUID
  uuid_str : List Char
  channel_id : ℤ
  tracker_point : Point3
  detection_point : Point3
  is_associated : Bool
  existence_vector : List ℚ
  total_existence_probability : ℚ
deriving DecidableEq, Repr

/-- The data a `Tracker` collaborator supplies to `collect`:
`getTrackedObject` yields the uuid and the pose position at the query time
(one `collect` call queries a single time, so the position is a value here),
`getUuidString`, `getExistenceProbabilityVector`,
`getTotalExistenceProbability`. -/
structure Tracker where
  uuid : UUID
  uuid_str : List Char
  position : Point3
  existence_vector : List ℚ
  total_existence_probability : ℚ
deriving DecidableEq, Repr

/-- One detected object: only `pose.position` is read. -/
structure DynamicObject where
  position : Point3
deriving DecidableEq, Repr

/-- `types::DynamicObjectList`: the detections of one input channel. -/
structure DynamicObjectList where
  objects : List DynamicObject
  channel_index : ℤ
deriving DecidableEq, Repr

/-- `visualization_msgs::msg::Marker::type` values used by the code (`ARROW`
is the message default). -/
inductive MarkerType where
  | ARROW
  | TEXT_VIEW_FACING
  | CUBE_LIST
  | LINE_LIST
deriving DecidableEq, Repr

/-- `visualization_msgs::msg::Marker::action` values used by the code. -/
inductive MarkerAction where
  | ADD
  | DELETE
deriving DecidableEq, Repr

/-- A render primitive: the fields of `visualization_msgs::msg::Marker` that
`debug_object.cpp` writes and that the specification constrains (namespace,
type, action, color, pose position, point list, text).  Header stamp, id,
scale and lifetime are set to constants/metadata the claims do not mention and
are omitted. -/
structure Marker where
  ns : List Char
  mtype : MarkerType
  action : MarkerAction
  color : Color
  pos : Point3
  points : List Point3
  text : List Char
deriving DecidableEq, Repr

/-- The state of a `TrackerObjectDebugger` instance. -/
structure TrackerObjectDebugger where
  frame_id : List Char
  channels_config : List InputChannel
  is_initialized : Bool
  message_time : ℤ
  object_data_list : List ObjectData
  object_data_groups : List (List ObjectData)
  markers : List Marker
deriving DecidableEq, Repr

/-- The constructor `TrackerObjectDebugger(frame_id, channels_config)`:
clears `markers_` and sets `message_time_` to zero.
Modelled from the spec: the member declarations (with their default
initializers) live in `debug_object.hpp`, which is not part of the sources;
per the spec, "initialization becomes true on first successful `collect()`
call and `getOutput()`/render queries are no-ops ... until that has happened
at least once since construction", so `is_initialized` starts `false`, and the
accumulation list and group list start empty. -/
def TrackerObjectDebugger.init (frame_id : List Char)
    (channels_config : List InputChannel) : TrackerObjectDebugger :=
  { frame_id := frame_id
    channels_config := channels_config
    is_initialized := false
    message_time := 0
    object_data_list := []
    object_data_groups := []
    markers := [] }

/-- `TrackerObjectDebugger::reset()`: clears `object_data_list_` and
`markers_` (and nothing else). -/
def TrackerObjectDebugger.reset (s : TrackerObjectDebugger) :
    TrackerObjectDebugger :=
  { s with object_data_list := [], markers := [] }

/-- Checked element access `l.at(i)` with a C++ `int` index (negative or
too-large indices throw `std::out_of_range`, modelled as `none`). -/
def listAt (l : List α) (i : ℤ) : Option α :=
  if i < 0 then none else l[i.toNat]?

/-- Checked in-place mutation of element `i` (the code binds a reference via
`vec.at(i)` and then modifies the element through it). -/
def listUpdateAt (l : List α) (i : ℤ) (f : α → α) : Option (List α) :=
  (listAt l i).map (fun a => l.set i.toNat (f a))

/-- The per-tracker body of the `collect` loop: builds one `ObjectData` from
the tracker at position `tracker_idx`.  If `direct_assignment` maps the index,
the detection position is read with the checked access
`detected_objects.objects.at(...)` and `is_associated` is set; otherwise the
detection position is a copy of the tracker position. -/
def collectOne (message_time : ℤ) (detected_objects : DynamicObjectList)
    (direct_assignment : ℤ → Option ℤ) (tracker_idx : ℤ) (tr : Tracker) :
    Option ObjectData :=
  match direct_assignment tracker_idx with
  | some det_idx =>
    (listAt detected_objects.objects det_idx).map (fun associated_object =>
      { time := message_time
        uuid := tr.uuid
        uuid_str := tr.uuid_str
        channel_id := detected_objects.channel_index
        tracker_point := tr.position
        detection_point := associated_object.position
        is_associated := true
        existence_vector := tr.existence_vector
        total_existence_probability := tr.total_existence_probability })
  | none =>
    some
      { time := message_time
        uuid := tr.uuid
        uuid_str := tr.uuid_str
        channel_id := detected_objects.channel_index
        tracker_point := tr.position
        detection_point := tr.position
        is_associated := false
        existence_vector := tr.existence_vector
        total_existence_probability := tr.total_existence_probability }

/-- The `collect` loop over `list_tracker`, with `tracker_idx` counting up
from its first argument. -/
def collectRecords (message_time : ℤ) (detected_objects : DynamicObjectList)
    (direct_assignment : ℤ → Option ℤ) (tracker_idx : ℤ) :
    List Tracker → Option (List ObjectData)
  | [] => some []
  | tr :: rest => do
    let od ← collectOne message_time detected_objects direct_assignment
      tracker_idx tr
    let ods ← collectRecords message_time detected_objects direct_assignment
      (tracker_idx + 1) rest
    some (od :: ods)

/-- `TrackerObjectDebugger::collect`: sets `is_initialized_`, records the
message time, and appends one observation record per tracker to
`object_data_list_` (the `reverse_assignment` parameter is unused in the
source and therefore not modelled). -/
def TrackerObjectDebugger.collect (s : TrackerObjectDebugger)
    (message_time : ℤ) (list_tracker : List Tracker)
    (detected_objects : DynamicObjectList)
    (direct_assignment : ℤ → Option ℤ) : Option TrackerObjectDebugger :=
  (collectRecords message_time detected_objects direct_assignment 0
      list_tracker).map
    (fun recs =>
      { s with
        is_initialized := true
        message_time := message_time
        object_data_list := s.object_data_list ++ recs })

/-- The grouping loop of `TrackerObjectDebugger::process`: walks the sorted
list, closing the current group whenever the uuid changes from
`previous_uuid`, and closes the last group at the end. -/
def chunkCore (previous_uuid : UUID) (object_data_group : List ObjectData) :
    List ObjectData → List (List ObjectData)
  | [] => [object_data_group]
  | od :: rest =>
    if od.uuid ≠ previous_uuid then
      object_data_group :: chunkCore od.uuid [od] rest
    else
      chunkCore previous_uuid (object_data_group ++ [od]) rest

/-- Grouping of the (already sorted) accumulation list: `previous_uuid` starts
at the uuid of `front()` and the loop runs over the whole list, starting from
an empty current group. -/
def finalizeGroups : List ObjectData → List (List ObjectData)
  | [] => []
  | od :: rest => chunkCore od.uuid [] (od :: rest)

/-- The comparator passed to `std::sort` is
`[](a, b) -> bool: return a.uuid < b.uuid`.  A sequence is sorted for this
strict weak order iff consecutive elements satisfy `¬(b.uuid < a.uuid)`, i.e.
`a.uuid ≤ b.uuid`. -/
def sortedByUuid (l : List ObjectData) : Prop :=
  l.Pairwise (fun a b => a.uuid ≤ b.uuid)

/-- What the C++ standard guarantees about `std::sort(first, last, comp)` with
the comparator above: the result is a permutation of the input, sorted w.r.t.
the comparator.  (Stability is *not* guaranteed; `std::sort` may reorder
equivalent elements.)  The debugger is modelled parametrically in any
implementation satisfying this contract. -/
def SortCompliant (sortFn : List ObjectData → List ObjectData) : Prop :=
  ∀ l, (sortFn l).Perm l ∧ sortedByUuid (sortFn l)

/-- `TrackerObjectDebugger::process`: no-op unless initialized and the
accumulation list is non-empty; otherwise sorts `object_data_list_` in place
with `std::sort` (any compliant `sortFn`) and rebuilds
`object_data_groups_`. -/
def TrackerObjectDebugger.process
    (sortFn : List ObjectData → List ObjectData)
    (s : TrackerObjectDebugger) : TrackerObjectDebugger :=
  if s.is_initialized = false then s
  else if s.object_data_list = [] then s
  else
    let sorted := sortFn s.object_data_list
    { s with
      object_data_list := sorted
      object_data_groups := finalizeGroups sorted }

/-- `static_cast<int>` applied to a real value: truncation toward zero. -/
def cppTruncToInt (q : ℚ) : ℤ :=
  if q < 0 then -(Int.floor (-q)) else Int.floor q

/-- Decimal digits of an `int`, as `std::to_string` renders them. -/
def intChars (i : ℤ) : List Char :=
  (toString i).toList

/-- The per-channel part of the label text: for `i` in
`[0, channels_config_.size())`, read `existence_vector[i]` (unchecked
`operator[]`: out of range is undefined behaviour, modelled as `none`), skip
the channel when the entry is `< 0.00101`, and otherwise append
`short_name + to_string(int(entry * 100)) + ":"`. -/
def channelEntriesText (existence_vector : List ℚ) :
    ℕ → List InputChannel → Option (List Char)
  | _, [] => some []
  | i, ch :: rest => do
    let p ← existence_vector[i]?
    let tail ← channelEntriesText existence_vector (i + 1) rest
    if p < 0.00101 then some tail
    else some (ch.short_name ++ intChars (cppTruncToInt (p * 100))
      ++ [':'] ++ tail)

/-- The `existence_probability_text` string built by `draw` for the front
record of a group: `"total:" + to_string(int(total * 100)) + "\n"`, then the
per-channel entries, then `pop_back()` on the (never actually empty)
accumulated string, then `"\n"` and the first six characters of the uuid
string. -/
def existenceText (channels_config : List InputChannel) (front : ObjectData) :
    Option (List Char) := do
  let entries ← channelEntriesText front.existence_vector 0 channels_config
  let t := ("total:".toList
    ++ intChars (cppTruncToInt (front.total_existence_probability * 100))
    ++ ['\n']) ++ entries
  let t := if t = [] then t else t.dropLast
  some (t ++ ['\n'] ++ front.uuid_str.take 6)

/-- The 16-entry color palette of `draw`, with its exact double values. -/
def color_array : Fin 16 → ℚ × ℚ × ℚ :=
  ![(0, 0, 1), (0, 1, 0), (1, 1, 0), (1, 0, 0),
    (0, 1, 1), (1, 0, 1), (1, 0.64, 0), (0.75, 1, 0),
    (0, 0.5, 0.5), (0.5, 0, 0.5), (1, 0.75, 0.8), (0.65, 0.17, 0.17),
    (0.5, 0, 0), (0.5, 0.5, 0), (0, 0, 0.5), (0.5, 0.5, 0.5)]

/-- Per-channel color: `color_array[idx % PALETTE_SIZE]` with alpha `0.9`. -/
def channelColor (idx : ℕ) : Color :=
  let c := color_array ⟨idx % 16, Nat.mod_lt idx (by norm_num)⟩
  { r := c.1, g := c.2.1, b := c.2.2, a := 0.9 }

/-- The reference marker `draw` copies into every primitive: white, opaque,
at the origin (header stamp, id and lifetime omitted, see `Marker`). -/
def baseMarker : Marker :=
  { ns := []
    mtype := MarkerType.ARROW
    action := MarkerAction.ADD
    color := { r := 1, g := 1, b := 1, a := 1 }
    pos := { x := 0, y := 0, z := 0 }
    points := []
    text := [] }

/-- The initially empty per-channel markers (`marker_detect_boxes_per_channel`
or `marker_detect_lines_per_channel`), built with `push_back` over
`channels_config_`; `idx` counts the channel index used for the palette
lookup. -/
def initChannelMarkers (nsStem : List Char) (mtype : MarkerType) :
    ℕ → List InputChannel → List Marker
  | _, [] => []
  | idx, ch :: rest =>
    { baseMarker with
      ns := nsStem ++ ch.short_name
      mtype := mtype
      action := MarkerAction.ADD
      color := channelColor idx } :: initChannelMarkers nsStem mtype (idx + 1) rest

/-- Appending a record's (height-offset) detection point to its channel's
detection-box marker (`marker_detect_boxes.points.push_back(box_point)` with
`z = detection_point.z + marker_height_offset + assign_height_offset`). -/
def pushDetectPoint (od : ObjectData) (m : Marker) : Marker :=
  { m with points := m.points ++
    [{ x := od.detection_point.x, y := od.detection_point.y,
       z := od.detection_point.z + 1 + 0.6 }] }

/-- Appending a record's two-point association segment (tracker point to
detection point, each with its height offset) to its channel's
association-line marker. -/
def pushLinePoints (od : ObjectData) (m : Marker) : Marker :=
  { m with points := m.points ++
    [{ x := od.tracker_point.x, y := od.tracker_point.y,
       z := od.tracker_point.z + 1 },
     { x := od.detection_point.x, y := od.detection_point.y,
       z := od.detection_point.z + 1 + 0.6 }] }

/-- The record loop of `draw` over one group: unconditionally appends the
height-offset tracker point to the track-box point list; for associated
records, appends the detection point to the channel's detection-box marker and
the two-point segment to the channel's association-line marker (both accessed
with the checked `vector::at(channel_id)`), and raises the group's
`is_associated` flag. -/
def drawRecords (track_points : List Point3)
    (detect_boxes detect_lines : List Marker) (is_associated : Bool) :
    List ObjectData →
    Option (List Point3 × List Marker × List Marker × Bool)
  | [] => some (track_points, detect_boxes, detect_lines, is_associated)
  | od :: rest =>
    let track_points := track_points ++
      [{ x := od.tracker_point.x, y := od.tracker_point.y,
         z := od.tracker_point.z + 1 }]
    if od.is_associated then do
      let detect_boxes ← listUpdateAt detect_boxes od.channel_id
        (pushDetectPoint od)
      let detect_lines ← listUpdateAt detect_lines od.channel_id
        (pushLinePoints od)
      drawRecords track_points detect_boxes detect_lines true rest
    else
      drawRecords track_points detect_boxes detect_lines is_associated rest

/-- The tombstone pass after the record loop: a per-channel marker whose point
list stayed empty has its action switched to `DELETE`; it is pushed to the
output either way.  (The code iterates `i` over `channels_config_.size()` and
reads `vec.at(i)`; the vectors are built from `channels_config_` and the
record loop preserves their length, so this is a map.) -/
def tombstone (m : Marker) : Marker :=
  if m.points = [] then { m with action := MarkerAction.DELETE } else m

/-- The body of `draw` for one (non-empty) group: builds the label text
marker from the front record, runs the record loop, applies the tombstone
pass, dims the label and track-box markers when no record was associated, and
emits, in order, the per-channel detection boxes, the per-channel association
lines, the label marker, and the track-box marker. -/
def drawGroup (channels_config : List InputChannel) :
    List ObjectData → Option (List Marker)
  | [] => some []
  | front :: rest => do
    let text ← existenceText channels_config front
    let text_marker : Marker :=
      { baseMarker with
        ns := "existence_probability".toList
        mtype := MarkerType.TEXT_VIEW_FACING
        action := MarkerAction.ADD
        pos := { x := front.tracker_point.x, y := front.tracker_point.y,
                 z := front.tracker_point.z + 2.5 }
        text := text }
    let marker_track_boxes : Marker :=
      { baseMarker with
        ns := "track_boxes".toList
        mtype := MarkerType.CUBE_LIST
        action := MarkerAction.ADD
        color := { r := 1, g := 1, b := 1, a := 0.9 } }
    let detect_boxes0 :=
      initChannelMarkers "detect_boxes_".toList MarkerType.CUBE_LIST 0
        channels_config
    let detect_lines0 :=
      initChannelMarkers "association_lines_".toList MarkerType.LINE_LIST 0
        channels_config
    let st ← drawRecords [] detect_boxes0 detect_lines0 false (front :: rest)
    let (track_points, detect_boxes, detect_lines, is_associated) := st
    let detect_boxes := detect_boxes.map tombstone
    let detect_lines := detect_lines.map tombstone
    let text_marker :=
      if is_associated then text_marker
      else { text_marker with
             color := { r := 0.5, g := 0.5, b := 0.5, a := 0.9 } }
    let marker_track_boxes :=
      { marker_track_boxes with points := track_points }
    let marker_track_boxes :=
      if is_associated then marker_track_boxes
      else { marker_track_boxes with
             color := { r := 0.5, g := 0.5, b := 0.5, a := 0.8 } }
    some (detect_boxes ++ detect_lines ++ [text_marker, marker_track_boxes])

/-- One iteration of the group loop of `draw`: empty groups are skipped
(`continue`), the primitives of a non-empty group are appended to the output
array. -/
def drawStep (channels_config : List InputChannel) (acc : List Marker)
    (g : List ObjectData) : Option (List Marker) :=
  if g = [] then some acc
  else do
    let ms ← drawGroup channels_config g
    some (acc ++ ms)

/-- `TrackerObjectDebugger::draw`: clears the output array, then appends the
primitives of each non-empty group (empty groups are skipped). -/
def TrackerObjectDebugger.draw (channels_config : List InputChannel)
    (object_data_groups : List (List ObjectData)) : Option (List Marker) :=
  object_data_groups.foldlM (drawStep channels_config) []

/-- `TrackerObjectDebugger::getMessage(marker_array)`: leaves the caller's
array untouched unless initialized; otherwise fills it from
`object_data_groups_` via `draw`. -/
def TrackerObjectDebugger.getMessage (s : TrackerObjectDebugger)
    (marker_array : List Marker) : Option (List Marker) :=
  if s.is_initialized = false then some marker_array
  else TrackerObjectDebugger.draw s.channels_config s.object_data_groups

/-- Decidability of the modelled comparator's reflexive closure. -/
instance : DecidableRel (fun a b : ObjectData => a.uuid ≤ b.uuid) :=
  fun a b => Nat.decLe a.uuid b.uuid

/-- One concrete `std::sort`-compliant implementation (used to run the
pipeline on concrete inputs): Mathlib's insertion sort. -/
def insSortUuid : List ObjectData → List ObjectData :=
  List.insertionSort (fun a b => a.uuid ≤ b.uuid)

/-- The strict ordering between whole groups produced by the grouping stage:
every member of the first group has a strictly smaller identity than every
member of the second. -/
def GroupLt (g1 g2 : List ObjectData) : Prop :=
  ∀ a ∈ g1, ∀ b ∈ g2, a.uuid < b.uuid

/-- The individual per-channel label entries (each `short_name` followed by
the truncated integer percentage), without separators: the list whose
colon-joined concatenation the code's string loop produces. -/
def entryStrings (existence_vector : List ℚ) :
    ℕ → List InputChannel → Option (List (List Char))
  | _, [] => some []
  | i, ch :: rest => do
    let p ← existence_vector[i]?
    let tail ← entryStrings existence_vector (i + 1) rest
    if p < 0.00101 then some tail
    else some ((ch.short_name ++ intChars (cppTruncToInt (p * 100))) :: tail)

/-- Joining strings with a single `':'` separator between consecutive
entries. -/
def joinColon : List (List Char) → List Char
  | [] => []
  | [e] => e
  | e :: e2 :: rest => e ++ [':'] ++ joinColon (e2 :: rest)

/-- The namespace-and-action projection preserved by the record loop (only
`points` is ever modified on the per-channel markers). -/
def projNA (m : Marker) : List Char × MarkerAction :=
  (m.ns, m.action)

/-- The observation record `collect` builds for an unassociated tracker. -/
def unassociatedRecord (message_time : ℤ)
    (detected_objects : DynamicObjectList) (tr : Tracker) : ObjectData :=
  { time := message_time
    uuid := tr.uuid
    uuid_str := tr.uuid_str
    channel_id := detected_objects.channel_index
    tracker_point := tr.position
    detection_point := tr.position
    is_associated := false
    existence_vector := tr.existence_vector
    total_existence_probability := tr.total_existence_probability }

/-- A second `std::sort`-compliant implementation: insertion sort after
reversing the input.  It satisfies everything the C++ standard guarantees for
`std::sort`, but reverses the relative order of records whose identities
compare equal. -/
def revSortUuid : List ObjectData → List ObjectData :=
  fun l => insSortUuid l.reverse

/-- The per-channel label entries as the specification's sentence prescribes
them (refinement reference, written from the spec's words, not from the
source): the percentage is `round(entry * 100)` instead of the code's
truncation. -/
def specEntryStringsRounded (existence_vector : List ℚ) :
    ℕ → List InputChannel → Option (List (List Char))
  | _, [] => some []
  | i, ch :: rest => do
    let p ← existence_vector[i]?
    let tail ← specEntryStringsRounded existence_vector (i + 1) rest
    if p < 0.00101 then some tail
    else some ((ch.short_name ++ intChars (round (p * 100))) :: tail)

/-- The label text as claim C2 states it (refinement reference, written from
the spec's words, not from the source): `"total:" + round(total * 100)` and a
newline, the qualifying channel entries each followed by a `":"` separator
with the trailing separator removed from that segment, then a newline and the
six-character identity prefix. -/
def specLabelText (channels_config : List InputChannel) (front : ObjectData) :
    Option (List Char) := do
  let es ← specEntryStringsRounded front.existence_vector 0 channels_config
  some ("total:".toList
    ++ intChars (round (front.total_existence_probability * 100)) ++ ['\n']
    ++ ((es.map (fun e => e ++ [':'])).flatten).dropLast
    ++ ['\n'] ++ front.uuid_str.take 6)

/-- Two accumulated records used to exercise the grouping stage: identical
identities (uuid 5), distinguishable by their channel id, accumulated in the
order channel 0 then channel 1. -/
def c3RecordA : ObjectData :=
  { time := 0
    uuid := 5
    uuid_str := "aa".toList
    channel_id := 0
    tracker_point := { x := 0, y := 0, z := 0 }
    detection_point := { x := 0, y := 0, z := 0 }
    is_associated := false
    existence_vector := []
    total_existence_probability := 0 }

/-- Same record with channel id 1. -/
def c3RecordB : ObjectData :=
  { c3RecordA with channel_id := 1 }

/-- A debugger state holding the two equal-identity records in insertion
order `[c3RecordA, c3RecordB]`. -/
def c3State : TrackerObjectDebugger :=
  { frame_id := "map".toList
    channels_config := []
    is_initialized := true
    message_time := 0
    object_data_list := [c3RecordA, c3RecordB]
    object_data_groups := []
    markers := [] }

/-- A one-channel configuration used for concrete runs. -/
def demoChannels : List InputChannel := [{ short_name := "ch".toList }]

/-- A concrete tracker (uuid 5). -/
def demoTrackerA : Tracker :=
  { uuid := 5
    uuid_str := "abcdef12".toList
    position := { x := 1, y := 2, z := 3 }
    existence_vector := [1/2]
    total_existence_probability := 1/2 }

/-- A concrete tracker (uuid 3). -/
def demoTrackerB : Tracker :=
  { uuid := 3
    uuid_str := "cafe0123".toList
    position := { x := 4, y := 5, z := 6 }
    existence_vector := [1/2]
    total_existence_probability := 1/2 }

/-- A concrete detection list for channel 0, one detection. -/
def demoDetections : DynamicObjectList :=
  { objects := [{ position := { x := 7, y := 8, z := 9 } }]
    channel_index := 0 }

/-- A concrete empty detection list for channel 1. -/
def demoDetections2 : DynamicObjectList :=
  { objects := [], channel_index := 1 }

/-- A concrete association map: tracker 0 is associated with detection 0. -/
def demoAssign : ℤ → Option ℤ := fun i => if i = 0 then some 0 else none

/-- A freshly constructed debugger over the demo configuration. -/
def demoState : TrackerObjectDebugger :=
  TrackerObjectDebugger.init "map".toList demoChannels

/-- A concrete associated observation record on channel 0. -/
def demoRecord : ObjectData :=
  { time := 0
    uuid := 5
    uuid_str := "abcdef12".toList
    channel_id := 0
    tracker_point := { x := 1, y := 2, z := 3 }
    detection_point := { x := 7, y := 8, z := 9 }
    is_associated := true
    existence_vector := [1/2]
    total_existence_probability := 1/2 }

/-- A concrete record with total existence probability and single-channel
existence value both 0.999: the scaled value 99.9 truncates to 99 but rounds
to 100. -/
def c2Front : ObjectData :=
  { time := 0
    uuid := 5
    uuid_str := "abcdef12".toList
    channel_id := 0
    tracker_point := { x := 1, y := 2, z := 3 }
    detection_point := { x := 1, y := 2, z := 3 }
    is_associated := false
    existence_vector := [999/1000]
    total_existence_probability := 999/1000 }

/-- The label text the code produces for `c2Front`. -/
def c2CodeText : List Char := "total:99\nch99\nabcdef".toList

/-- The label text claim C2's formula (with `round`) prescribes for
`c2Front`. -/
def c2SpecText : List Char := "total:100\nch100\nabcdef".toList

/-- The render output obtained after a full cycle (collect, process) followed
by `reset()` and a render query with an empty caller array, starting from a
freshly constructed debugger. -/
def c1AfterReset : Option (List Marker) :=
  (demoState.collect 0 [demoTrackerA] demoDetections demoAssign).bind
    (fun s1 => ((s1.process insSortUuid).reset).getMessage [])

theorem insSortUuid_compliant : SortCompliant insSortUuid := by
  intro l
  haveI : IsTotal ObjectData (fun a b => a.uuid ≤ b.uuid) :=
    ⟨fun a b => Nat.le_total a.uuid b.uuid⟩
  haveI : IsTrans ObjectData (fun a b => a.uuid ≤ b.uuid) :=
    ⟨fun _ _ _ hab hbc => Nat.le_trans hab hbc⟩
  exact ⟨List.perm_insertionSort _ l, List.sorted_insertionSort _ l⟩

/-- An `if` whose condition is an impossible `cons = nil` list equation takes
its else branch (helper for evaluating the embedding on concrete inputs). -/
theorem ite_cons_eq_nil {α : Type _} {β : Sort _} (a : α) (l : List α)
    [Decidable (a :: l = [])] (x y : β) :
    (if a :: l = [] then x else y) = y :=
  if_neg (by simp)

theorem chunkCore_flatten (l : List ObjectData) :
    ∀ prev group, (chunkCore prev group l).flatten = group ++ l := by
  induction l with
  | nil => intro prev group; simp [chunkCore]
  | cons od rest ih =>
    intro prev group
    by_cases h : od.uuid = prev
    · simp only [chunkCore, h, ne_eq, not_true_eq_false, if_false, ih]
      simp
    · simp only [chunkCore, ne_eq, h, not_false_eq_true, if_true,
        List.flatten_cons, ih]
      simp

theorem chunkCore_ne_nil (l : List ObjectData) :
    ∀ prev group,
      (group = [] → ∃ od rest, l = od :: rest ∧ od.uuid = prev) →
      ∀ g ∈ chunkCore prev group l, g ≠ [] := by
  induction l with
  | nil =>
    intro prev group hne g hg
    simp only [chunkCore, List.mem_singleton] at hg
    subst hg
    intro hnil
    obtain ⟨od, rest, hlist, _⟩ := hne hnil
    exact List.noConfusion hlist
  | cons od rest ih =>
    intro prev group hne g hg
    by_cases h : od.uuid = prev
    · simp only [chunkCore, h, ne_eq, not_true_eq_false, if_false] at hg
      exact ih prev (group ++ [od]) (by simp) g hg
    · simp only [chunkCore, ne_eq, h, not_false_eq_true, if_true,
        List.mem_cons] at hg
      rcases hg with hg | hg
      · subst hg
        intro hnil
        obtain ⟨od', rest', hlist, huuid⟩ := hne hnil
        obtain ⟨h1, _⟩ := List.cons.inj hlist
        exact h (h1 ▸ huuid)
      · exact ih od.uuid [od] (by simp) g hg

theorem chunkCore_const_uuid (l : List ObjectData) :
    ∀ prev group, (∀ a ∈ group, a.uuid = prev) →
      ∀ g ∈ chunkCore prev group l, ∃ u, ∀ a ∈ g, a.uuid = u := by
  induction l with
  | nil =>
    intro prev group hconst g hg
    simp only [chunkCore, List.mem_singleton] at hg
    exact ⟨prev, hg ▸ hconst⟩
  | cons od rest ih =>
    intro prev group hconst g hg
    by_cases h : od.uuid = prev
    · simp only [chunkCore, h, ne_eq, not_true_eq_false, if_false] at hg
      refine ih prev (group ++ [od]) ?_ g hg
      intro a ha
      rcases List.mem_append.1 ha with ha | ha
      · exact hconst a ha
      · simp only [List.mem_singleton] at ha
        exact ha ▸ h
    · simp only [chunkCore, ne_eq, h, not_false_eq_true, if_true,
        List.mem_cons] at hg
      rcases hg with hg | hg
      · exact ⟨prev, hg ▸ hconst⟩
      · exact ih od.uuid [od] (by simp) g hg

theorem chunkCore_pairwise (l : List ObjectData) :
    ∀ prev group, (∀ a ∈ group, a.uuid = prev) →
      sortedByUuid (group ++ l) →
      List.Pairwise GroupLt (chunkCore prev group l) := by
  induction l with
  | nil =>
    intro prev group _ _
    simp [chunkCore]
  | cons od rest ih =>
    intro prev group hconst hsorted
    by_cases h : od.uuid = prev
    · simp only [chunkCore, h, ne_eq, not_true_eq_false, if_false]
      refine ih prev (group ++ [od]) ?_ ?_
      · intro a ha
        rcases List.mem_append.1 ha with ha | ha
        · exact hconst a ha
        · simp only [List.mem_singleton] at ha
          exact ha ▸ h
      · simpa [sortedByUuid, List.append_assoc] using hsorted
    · simp only [chunkCore, ne_eq, h, not_false_eq_true, if_true]
      have hsorted' := hsorted
      rw [sortedByUuid, List.pairwise_append] at hsorted'
      obtain ⟨_, hright, hcross⟩ := hsorted'
      rw [List.pairwise_cons] at hright
      constructor
      · intro g' hg' a ha b hb
        have hbmem : b ∈ od :: rest := by
          have : b ∈ (chunkCore od.uuid [od] rest).flatten :=
            List.mem_flatten.2 ⟨g', hg', hb⟩
          rw [chunkCore_flatten] at this
          simpa using this
        have hlt : prev < od.uuid := by
          have hle : prev ≤ od.uuid := by
            have := hcross a ha od (by simp)
            rw [hconst a ha] at this
            exact this
          exact lt_of_le_of_ne hle (fun he => h he.symm)
        have hle2 : od.uuid ≤ b.uuid := by
          rcases List.mem_cons.1 hbmem with hb' | hb'
          · exact hb' ▸ le_refl _
          · exact hright.1 b hb'
        rw [hconst a ha]
        exact lt_of_lt_of_le hlt hle2
      · exact ih od.uuid [od] (by simp) (by simpa [sortedByUuid] using hright)

theorem dedup_const_append (u : UUID) :
    ∀ l1 l2 : List UUID, l1 ≠ [] → (∀ x ∈ l1, x = u) → u ∉ l2 →
      (l1 ++ l2).dedup = u :: l2.dedup := by
  intro l1
  induction l1 with
  | nil => intro l2 h; exact absurd rfl h
  | cons x tl ih =>
    intro l2 _ hconst hnot
    have hx : x = u := hconst x (by simp)
    cases tl with
    | nil =>
      simp only [List.singleton_append, hx]
      exact List.dedup_cons_of_not_mem hnot
    | cons y tl' =>
      have hy : y = u := hconst y (by simp)
      have hmem : x ∈ (y :: tl') ++ l2 := by
        simp [hx, hy]
      rw [List.cons_append, List.dedup_cons_of_mem hmem]
      exact ih l2 (by simp) (fun z hz => hconst z (List.mem_cons_of_mem x hz))
        hnot

/-- Any list of groups that is non-empty groupwise, identity-constant
groupwise and strictly ascending across groups recovers each group as the
identity-filter of its own flattening. -/
theorem groups_eq_filter_flatten (G : List (List ObjectData))
    (hconst : ∀ g ∈ G, ∃ u, ∀ a ∈ g, a.uuid = u)
    (hasc : List.Pairwise GroupLt G) :
    ∀ g ∈ G, ∀ a ∈ g,
      g = G.flatten.filter (fun od => od.uuid == a.uuid) := by
  induction G with
  | nil => intro g hg; exact absurd hg (by simp)
  | cons g0 G' ih =>
    intro g hg a ha
    rw [List.pairwise_cons] at hasc
    rw [List.flatten_cons, List.filter_append]
    rcases List.mem_cons.1 hg with hg' | hg'
    · subst hg'
      obtain ⟨u, hu⟩ := hconst g (by simp)
      have h1 : g.filter (fun od => od.uuid == a.uuid) = g := by
        refine List.filter_eq_self.2 ?_
        intro b hb
        simp only [beq_iff_eq]
        rw [hu b hb, hu a ha]
      have h2 : G'.flatten.filter (fun od => od.uuid == a.uuid) = [] := by
        refine List.filter_eq_nil_iff.2 ?_
        intro b hb
        obtain ⟨g', hg'', hb'⟩ := List.mem_flatten.1 hb
        have := hasc.1 g' hg'' a ha b hb'
        simp only [beq_iff_eq]
        exact Nat.ne_of_gt this
      rw [h1, h2, List.append_nil]
    · have h0 : g0.filter (fun od => od.uuid == a.uuid) = [] := by
        refine List.filter_eq_nil_iff.2 ?_
        intro b hb
        have hmem : a ∈ G'.flatten := List.mem_flatten.2 ⟨g, hg', ha⟩
        obtain ⟨g', hg'', ha'⟩ := List.mem_flatten.1 hmem
        have := hasc.1 g' hg'' b hb a ha'
        simp only [beq_iff_eq]
        exact Nat.ne_of_lt this
      rw [h0, List.nil_append]
      exact ih (fun g' h => hconst g' (List.mem_cons_of_mem g0 h)) hasc.2 g
        hg' a ha

/-- The canonical description of a chunking: viewed as multisets, the groups
are exactly the identity-filters of the flattened record list, enumerated
over the deduplicated identity list. -/
theorem groups_map_coe_canonical (G : List (List ObjectData))
    (hne : ∀ g ∈ G, g ≠ [])
    (hconst : ∀ g ∈ G, ∃ u, ∀ a ∈ g, a.uuid = u)
    (hasc : List.Pairwise GroupLt G) :
    G.map (fun g => Multiset.ofList g) =
      ((G.flatten.map (fun od => od.uuid)).dedup).map
        (fun u => Multiset.ofList
          (G.flatten.filter (fun od => od.uuid == u))) := by
  induction G with
  | nil => simp
  | cons g0 G' ih =>
    rw [List.pairwise_cons] at hasc
    obtain ⟨u, hu⟩ := hconst g0 (by simp)
    have hg0ne : g0 ≠ [] := hne g0 (by simp)
    have hflt : ∀ b ∈ G'.flatten, u < b.uuid := by
      intro b hb
      obtain ⟨g', hg', hb'⟩ := List.mem_flatten.1 hb
      obtain ⟨a, ha⟩ := List.exists_mem_of_ne_nil g0 hg0ne
      have := hasc.1 g' hg' a ha b hb'
      rwa [hu a ha] at this
    have hnotmem : u ∉ G'.flatten.map (fun od => od.uuid) := by
      intro hmem
      obtain ⟨b, hb, hbu⟩ := List.mem_map.1 hmem
      exact absurd hbu (Nat.ne_of_gt (hflt b hb))
    have hdedup :
        ((g0 ++ G'.flatten).map (fun od => od.uuid)).dedup =
          u :: (G'.flatten.map (fun od => od.uuid)).dedup := by
      rw [List.map_append]
      refine dedup_const_append u _ _ ?_ ?_ hnotmem
      · intro hmapnil
        exact hg0ne (List.map_eq_nil_iff.1 hmapnil)
      · intro x hx
        obtain ⟨b, hb, hbu⟩ := List.mem_map.1 hx
        exact hbu ▸ hu b hb
    have hfilter0 : (g0 ++ G'.flatten).filter (fun od => od.uuid == u) = g0 := by
      rw [List.filter_append]
      have h1 : g0.filter (fun od => od.uuid == u) = g0 :=
        List.filter_eq_self.2 (fun b hb => by
          simp only [beq_iff_eq]; exact hu b hb)
      have h2 : G'.flatten.filter (fun od => od.uuid == u) = [] :=
        List.filter_eq_nil_iff.2 (fun b hb => by
          simp only [beq_iff_eq]; exact Nat.ne_of_gt (hflt b hb))
      rw [h1, h2, List.append_nil]
    have htail :
        ∀ u' ∈ (G'.flatten.map (fun od => od.uuid)).dedup,
          (g0 ++ G'.flatten).filter (fun od => od.uuid == u') =
            G'.flatten.filter (fun od => od.uuid == u') := by
      intro u' hu'
      have hu'mem : u' ∈ G'.flatten.map (fun od => od.uuid) :=
        List.mem_dedup.1 hu'
      obtain ⟨b, hb, hbu⟩ := List.mem_map.1 hu'mem
      have hlt : u < u' := hbu ▸ hflt b hb
      rw [List.filter_append]
      have h1 : g0.filter (fun od => od.uuid == u') = [] :=
        List.filter_eq_nil_iff.2 (fun c hc => by
          simp only [beq_iff_eq]
          rw [hu c hc]
          exact Nat.ne_of_lt hlt)
      rw [h1, List.nil_append]
    rw [List.flatten_cons, hdedup, List.map_cons, List.map_cons, hfilter0]
    have ihres := ih (fun g h => hne g (List.mem_cons_of_mem g0 h))
      (fun g h => hconst g (List.mem_cons_of_mem g0 h)) hasc.2
    rw [ihres]
    congr 1
    exact (List.map_congr_left (fun u' hu' => by rw [htail u' hu'])).symm

theorem finalizeGroups_facts (s : List ObjectData) (hne : s ≠ [])
    (hs : sortedByUuid s) :
    (∀ g ∈ finalizeGroups s, g ≠ []) ∧
    (∀ g ∈ finalizeGroups s, ∃ u, ∀ a ∈ g, a.uuid = u) ∧
    List.Pairwise GroupLt (finalizeGroups s) ∧
    (finalizeGroups s).flatten = s := by
  cases s with
  | nil => exact absurd rfl hne
  | cons od rest =>
    refine ⟨?_, ?_, ?_, ?_⟩
    · exact chunkCore_ne_nil (od :: rest) od.uuid []
        (fun _ => ⟨od, rest, rfl, rfl⟩)
    · exact chunkCore_const_uuid (od :: rest) od.uuid [] (by simp)
    · exact chunkCore_pairwise (od :: rest) od.uuid [] (by simp)
        (by simpa [sortedByUuid] using hs)
    · simpa using chunkCore_flatten (od :: rest) od.uuid []

theorem finalizeGroups_canonical (s : List ObjectData) (hne : s ≠ [])
    (hs : sortedByUuid s) :
    (finalizeGroups s).map (fun g => Multiset.ofList g) =
      ((s.map (fun od => od.uuid)).dedup).map
        (fun u => Multiset.ofList (s.filter (fun od => od.uuid == u))) := by
  obtain ⟨h1, h2, h3, h4⟩ := finalizeGroups_facts s hne hs
  have := groups_map_coe_canonical (finalizeGroups s) h1 h2 h3
  rwa [h4] at this

theorem sorted_perm_groups_eq (s1 s2 : List ObjectData) (h12 : s1.Perm s2)
    (hne1 : s1 ≠ []) (hs1 : sortedByUuid s1) (hs2 : sortedByUuid s2) :
    (finalizeGroups s1).map (fun g => Multiset.ofList g) =
      (finalizeGroups s2).map (fun g => Multiset.ofList g) := by
  have hne2 : s2 ≠ [] := by
    intro h
    rw [h] at h12
    exact hne1 (List.Perm.eq_nil h12)
  rw [finalizeGroups_canonical s1 hne1 hs1, finalizeGroups_canonical s2 hne2 hs2]
  have hmapuuid : s1.map (fun od => od.uuid) = s2.map (fun od => od.uuid) := by
    have hs1' : List.Sorted (fun a b : UUID => a ≤ b)
        (s1.map (fun od => od.uuid)) := (List.pairwise_map).2 hs1
    have hs2' : List.Sorted (fun a b : UUID => a ≤ b)
        (s2.map (fun od => od.uuid)) := (List.pairwise_map).2 hs2
    haveI : IsAntisymm UUID (fun a b : UUID => a ≤ b) :=
      ⟨fun _ _ => Nat.le_antisymm⟩
    exact List.eq_of_perm_of_sorted (List.Perm.map _ h12) hs1' hs2'
  rw [hmapuuid]
  refine List.map_congr_left ?_
  intro u _
  exact Quot.sound (List.Perm.filter _ h12)

theorem collect_eq (s : TrackerObjectDebugger) (message_time : ℤ)
    (list_tracker : List Tracker) (detected_objects : DynamicObjectList)
    (direct_assignment : ℤ → Option ℤ) :
    s.collect message_time list_tracker detected_objects direct_assignment =
      (collectRecords message_time detected_objects direct_assignment 0
          list_tracker).map
        (fun recs =>
          { s with
            is_initialized := true
            message_time := message_time
            object_data_list := s.object_data_list ++ recs }) := rfl

theorem process_of_ne_nil (sortFn : List ObjectData → List ObjectData)
    (s : TrackerObjectDebugger) (hinit : s.is_initialized = true)
    (hne : s.object_data_list ≠ []) :
    s.process sortFn =
      { s with
        object_data_list := sortFn s.object_data_list
        object_data_groups := finalizeGroups (sortFn s.object_data_list) } := by
  unfold TrackerObjectDebugger.process
  rw [hinit]
  simp only [Bool.true_eq_false, if_false]
  rw [if_neg hne]

theorem process_groups_ms_of_perm (f1 f2 : List ObjectData → List ObjectData)
    (hf1 : SortCompliant f1) (hf2 : SortCompliant f2)
    (t1 t2 : TrackerObjectDebugger)
    (hperm : t1.object_data_list.Perm t2.object_data_list)
    (hi1 : t1.is_initialized = true) (hi2 : t2.is_initialized = true)
    (hgroups : t1.object_data_groups = t2.object_data_groups) :
    ((t1.process f1).object_data_groups).map (fun g => Multiset.ofList g) =
      ((t2.process f2).object_data_groups).map (fun g => Multiset.ofList g) := by
  by_cases hnil : t1.object_data_list = []
  · have hnil2 : t2.object_data_list = [] := by
      rw [hnil] at hperm
      exact (List.Perm.eq_nil hperm.symm)
    simp only [TrackerObjectDebugger.process, hi1, hi2, hnil, hnil2,
      Bool.true_eq_false, if_false, if_true, hgroups]
  · have hnil2 : t2.object_data_list ≠ [] := by
      intro h
      rw [h] at hperm
      exact hnil (List.Perm.eq_nil hperm)
    rw [process_of_ne_nil f1 t1 hi1 hnil, process_of_ne_nil f2 t2 hi2 hnil2]
    have hchain : (f1 t1.object_data_list).Perm (f2 t2.object_data_list) :=
      ((hf1 t1.object_data_list).1.trans hperm).trans
        (hf2 t2.object_data_list).1.symm
    have hsne : f1 t1.object_data_list ≠ [] := by
      intro h
      have := (hf1 t1.object_data_list).1
      rw [h] at this
      exact hnil (List.Perm.eq_nil this.symm)
    exact sorted_perm_groups_eq (f1 t1.object_data_list)
      (f2 t2.object_data_list) hchain hsne (hf1 t1.object_data_list).2
      (hf2 t2.object_data_list).2

theorem channelEntriesText_eq_entryStrings (existence_vector : List ℚ) :
    ∀ chs i,
      channelEntriesText existence_vector i chs =
        (entryStrings existence_vector i chs).map
          (fun es => (es.map (fun e => e ++ [':'])).flatten) := by
  intro chs
  induction chs with
  | nil => intro i; rfl
  | cons ch rest ih =>
    intro i
    cases hp : existence_vector[i]? with
    | none => simp [channelEntriesText, entryStrings, hp]
    | some p =>
      cases ht : entryStrings existence_vector (i + 1) rest with
      | none =>
        have := ih (i + 1)
        rw [ht] at this
        simp [channelEntriesText, entryStrings, hp, ht, this]
      | some tail =>
        have := ih (i + 1)
        rw [ht] at this
        by_cases hlt : p < 0.00101
        · simp [channelEntriesText, entryStrings, hp, ht, this, hlt]
        · simp [channelEntriesText, entryStrings, hp, ht, this, hlt]

theorem dropLast_append_ne_nil {α : Type _} (l2 : List α) :
    ∀ l1 : List α, l2 ≠ [] → (l1 ++ l2).dropLast = l1 ++ l2.dropLast := by
  induction l2 with
  | nil => intro l1 h; exact absurd rfl h
  | cons x tl ih =>
    intro l1 _
    cases tl with
    | nil => simp
    | cons y tl' =>
      have h1 : l1 ++ x :: y :: tl' = (l1 ++ [x]) ++ y :: tl' := by simp
      rw [h1, ih (l1 ++ [x]) (by simp)]
      simp

theorem flatten_colon_dropLast (es : List (List Char)) (hne : es ≠ []) :
    ((es.map (fun e => e ++ [':'])).flatten).dropLast = joinColon es := by
  induction es with
  | nil => exact absurd rfl hne
  | cons e rest ih =>
    cases rest with
    | nil => simp [joinColon]
    | cons e2 rest' =>
      have hflne : ((e2 :: rest').map (fun e => e ++ [':'])).flatten ≠ [] := by
        simp
      rw [List.map_cons, List.flatten_cons,
        dropLast_append_ne_nil _ _ hflne, ih (by simp)]
      simp [joinColon]

/-- The label text characterized without the string-building loop: the total
line, then the qualifying channel entries joined by single colons (that line
and its newline collapse when no channel qualifies), then the six-character
identity prefix. -/
theorem existenceText_eq (channels_config : List InputChannel)
    (front : ObjectData) (t : List Char)
    (h : existenceText channels_config front = some t) :
    ∃ es, entryStrings front.existence_vector 0 channels_config = some es ∧
      (es = [] →
        t = "total:".toList
          ++ intChars (cppTruncToInt (front.total_existence_probability * 100))
          ++ ['\n'] ++ front.uuid_str.take 6) ∧
      (es ≠ [] →
        t = "total:".toList
          ++ intChars (cppTruncToInt (front.total_existence_probability * 100))
          ++ ['\n'] ++ joinColon es ++ ['\n'] ++ front.uuid_str.take 6) := by
  unfold existenceText at h
  rw [channelEntriesText_eq_entryStrings] at h
  cases hes : entryStrings front.existence_vector 0 channels_config with
  | none => rw [hes] at h; exact Option.noConfusion h
  | some es =>
    rw [hes] at h
    simp only [Option.map_some', Option.bind_eq_bind, Option.some_bind,
      Option.some.injEq] at h
    refine ⟨es, rfl, ?_, ?_⟩
    · intro hnil
      subst hnil
      have h2 := h
      simp only [List.map_nil, List.flatten_nil, List.append_nil] at h2
      rw [if_neg (by simp), List.dropLast_concat] at h2
      exact h2.symm
    · intro hne
      have hflne : ((es.map (fun e => e ++ [':'])).flatten) ≠ [] := by
        cases es with
        | nil => exact absurd rfl hne
        | cons e rest => simp
      have h2 := h
      rw [if_neg (by simp), dropLast_append_ne_nil _ _ hflne,
        flatten_colon_dropLast es hne] at h2
      exact h2.symm

theorem filterMap_congr_mem {α β : Type _} (f g : α → Option β) :
    ∀ l : List α, (∀ a ∈ l, f a = g a) → l.filterMap f = l.filterMap g := by
  intro l
  induction l with
  | nil => intro _; rfl
  | cons a tl ih =>
    intro h
    rw [List.filterMap_cons, List.filterMap_cons, h a (by simp),
      ih (fun b hb => h b (List.mem_cons_of_mem a hb))]

/-- Positional characterization of the per-channel label entries: channel `k`
contributes exactly when its existence entry is `≥ 0.00101`, and then
contributes its `short_name` followed by the truncated integer percentage. -/
theorem entryStrings_eq_filterMap (existence_vector : List ℚ) :
    ∀ chs : List InputChannel, ∀ i0 es,
      entryStrings existence_vector i0 chs = some es →
      es = (List.range chs.length).filterMap (fun k =>
        (existence_vector[i0 + k]?).bind (fun p =>
          (chs[k]?).bind (fun ch =>
            if p < 0.00101 then none
            else some (ch.short_name ++ intChars (cppTruncToInt (p * 100)))))) := by
  intro chs
  induction chs with
  | nil =>
    intro i0 es h
    simp only [entryStrings, Option.some.injEq] at h
    simp [← h]
  | cons ch rest ih =>
    intro i0 es h
    simp only [entryStrings, Option.bind_eq_bind] at h
    cases hp : existence_vector[i0]? with
    | none => rw [hp] at h; exact Option.noConfusion h
    | some p =>
      rw [hp] at h
      cases ht : entryStrings existence_vector (i0 + 1) rest with
      | none => rw [ht] at h; exact Option.noConfusion h
      | some tail =>
        rw [ht] at h
        simp only [Option.some_bind] at h
        have htail := ih (i0 + 1) tail ht
        have hshift :
            (List.range rest.length).filterMap (fun k =>
              (existence_vector[(i0 + 1) + k]?).bind (fun p =>
                (rest[k]?).bind (fun c =>
                  if p < 0.00101 then none
                  else some (c.short_name ++ intChars (cppTruncToInt (p * 100)))))) =
            (List.range rest.length).filterMap ((fun k =>
              (existence_vector[i0 + k]?).bind (fun p =>
                ((ch :: rest)[k]?).bind (fun c =>
                  if p < 0.00101 then none
                  else some (c.short_name ++ intChars (cppTruncToInt (p * 100)))))) ∘ Nat.succ) := by
          refine filterMap_congr_mem _ _ _ ?_
          intro k _
          simp only [Function.comp]
          have harith : i0 + Nat.succ k = (i0 + 1) + k := by omega
          rw [harith, List.getElem?_cons_succ]
        rw [List.length_cons, List.range_succ_eq_map, List.filterMap_cons,
          List.filterMap_map]
        simp only [Nat.add_zero, hp, List.getElem?_cons_zero, Option.some_bind]
        rw [← hshift, ← htail]
        by_cases hlt : p < 0.00101
        · rw [if_pos hlt] at h ⊢
          exact (Option.some.inj h).symm
        · rw [if_neg hlt] at h ⊢
          exact (Option.some.inj h).symm

theorem set_getElem_self {α : Type _} (l : List α) :
    ∀ n a, l[n]? = some a → l.set n a = l := by
  induction l with
  | nil => intro n a h; exact Option.noConfusion h
  | cons x tl ih =>
    intro n a h
    cases n with
    | zero =>
      simp only [List.getElem?_cons_zero, Option.some.injEq] at h
      rw [List.set_cons_zero, h]
    | succ n =>
      simp only [List.getElem?_cons_succ] at h
      rw [List.set_cons_succ, ih n a h]

theorem listUpdateAt_map {α β : Type _} (l : List α) (i : ℤ) (f : α → α)
    (l' : List α) (g : α → β) (h : listUpdateAt l i f = some l')
    (hfg : ∀ a, g (f a) = g a) : l'.map g = l.map g := by
  unfold listUpdateAt listAt at h
  by_cases hneg : i < 0
  · rw [if_pos hneg] at h
    exact Option.noConfusion h
  · rw [if_neg hneg] at h
    cases ha : l[i.toNat]? with
    | none => rw [ha] at h; exact Option.noConfusion h
    | some a =>
      rw [ha] at h
      simp only [Option.map_some', Option.some.injEq] at h
      rw [← h, List.map_set, hfg]
      refine set_getElem_self _ _ _ ?_
      rw [List.getElem?_map, ha, Option.map_some']

theorem listUpdateAt_some_of_lt {α : Type _} (l : List α) (i : ℤ) (f : α → α)
    (h0 : 0 ≤ i) (hlt : i < (l.length : ℤ)) :
    ∃ l', listUpdateAt l i f = some l' ∧ l'.length = l.length := by
  unfold listUpdateAt listAt
  rw [if_neg (not_lt.2 h0)]
  have hnat : i.toNat < l.length := by omega
  rw [List.getElem?_eq_getElem hnat]
  exact ⟨_, rfl, List.length_set l _ _⟩

theorem drawRecords_facts :
    ∀ (recs : List ObjectData) (tp : List Point3) (db dl : List Marker)
      (b : Bool) (tp' : List Point3) (db' dl' : List Marker) (b' : Bool),
      drawRecords tp db dl b recs = some (tp', db', dl', b') →
      db'.map projNA = db.map projNA ∧ dl'.map projNA = dl.map projNA ∧
        b' = (b || recs.any (fun od => od.is_associated)) := by
  intro recs
  induction recs with
  | nil =>
    intro tp db dl b tp' db' dl' b' h
    simp only [drawRecords, Option.some.injEq, Prod.mk.injEq] at h
    obtain ⟨_, h2, h3, h4⟩ := h
    rw [← h2, ← h3, ← h4]
    simp
  | cons od rest ih =>
    intro tp db dl b tp' db' dl' b' h
    simp only [drawRecords] at h
    by_cases hassoc : od.is_associated
    · rw [if_pos hassoc] at h
      simp only [Option.bind_eq_bind] at h
      cases hdb : listUpdateAt db od.channel_id (pushDetectPoint od) with
      | none => rw [hdb] at h; exact Option.noConfusion h
      | some db2 =>
        rw [hdb] at h
        simp only [Option.some_bind] at h
        cases hdl : listUpdateAt dl od.channel_id (pushLinePoints od) with
        | none => rw [hdl] at h; exact Option.noConfusion h
        | some dl2 =>
          rw [hdl] at h
          simp only [Option.some_bind] at h
          obtain ⟨hdb', hdl', hb'⟩ := ih _ _ _ _ _ _ _ _ h
          refine ⟨?_, ?_, ?_⟩
          · rw [hdb', listUpdateAt_map db _ _ _ projNA hdb (fun a => rfl)]
          · rw [hdl', listUpdateAt_map dl _ _ _ projNA hdl (fun a => rfl)]
          · rw [hb']
            simp [hassoc]
    · rw [if_neg hassoc] at h
      obtain ⟨hdb', hdl', hb'⟩ := ih _ _ _ _ _ _ _ _ h
      refine ⟨hdb', hdl', ?_⟩
      rw [hb']
      have : od.is_associated = false := by
        cases hx : od.is_associated
        · rfl
        · exact absurd rfl (hx ▸ hassoc)
      simp [this]

theorem drawRecords_total :
    ∀ (recs : List ObjectData) (tp : List Point3) (db dl : List Marker)
      (b : Bool),
      (∀ od ∈ recs, od.is_associated = true →
        0 ≤ od.channel_id ∧ od.channel_id < (db.length : ℤ)) →
      db.length = dl.length →
      (drawRecords tp db dl b recs).isSome := by
  intro recs
  induction recs with
  | nil => intro tp db dl b _ _; simp [drawRecords]
  | cons od rest ih =>
    intro tp db dl b hbound hlen
    simp only [drawRecords]
    by_cases hassoc : od.is_associated
    · rw [if_pos hassoc]
      obtain ⟨h0, hlt⟩ := hbound od (by simp) hassoc
      obtain ⟨db2, hdb2, hdb2len⟩ := listUpdateAt_some_of_lt db od.channel_id
        (pushDetectPoint od) h0 hlt
      obtain ⟨dl2, hdl2, hdl2len⟩ := listUpdateAt_some_of_lt dl od.channel_id
        (pushLinePoints od) h0 (by omega)
      simp only [Option.bind_eq_bind, hdb2, Option.some_bind, hdl2]
      refine ih _ db2 dl2 _ ?_ (by omega)
      intro od' hod' hassoc'
      obtain ⟨h0', hlt'⟩ := hbound od' (List.mem_cons_of_mem od hod') hassoc'
      exact ⟨h0', by rw [hdb2len]; exact hlt'⟩
    · rw [if_neg hassoc]
      exact ih _ _ _ _
        (fun od' hod' ha => hbound od' (List.mem_cons_of_mem od hod') ha) hlen

theorem initChannelMarkers_map_ns (nsStem : List Char) (mtype : MarkerType) :
    ∀ (chs : List InputChannel) (i : ℕ),
      (initChannelMarkers nsStem mtype i chs).map (fun m => m.ns) =
        chs.map (fun ch => nsStem ++ ch.short_name) := by
  intro chs
  induction chs with
  | nil => intro i; rfl
  | cons ch rest ih =>
    intro i
    simp only [initChannelMarkers, List.map_cons, ih]

theorem initChannelMarkers_mem (nsStem : List Char) (mtype : MarkerType) :
    ∀ (chs : List InputChannel) (i : ℕ) (m : Marker),
      m ∈ initChannelMarkers nsStem mtype i chs →
      m.action = MarkerAction.ADD ∧ m.points = [] := by
  intro chs
  induction chs with
  | nil => intro i m h; exact absurd h (by simp [initChannelMarkers])
  | cons ch rest ih =>
    intro i m h
    simp only [initChannelMarkers, List.mem_cons] at h
    rcases h with h | h
    · rw [h]
      exact ⟨rfl, rfl⟩
    · exact ih (i + 1) m h

theorem tombstone_ns (m : Marker) : (tombstone m).ns = m.ns := by
  unfold tombstone
  split <;> rfl

theorem tombstone_points (m : Marker) : (tombstone m).points = m.points := by
  unfold tombstone
  split <;> rfl

theorem tombstone_action_of_add (m : Marker) (h : m.action = MarkerAction.ADD) :
    ((tombstone m).points = [] → (tombstone m).action = MarkerAction.DELETE) ∧
      ((tombstone m).points ≠ [] → (tombstone m).action = MarkerAction.ADD) := by
  unfold tombstone
  by_cases hp : m.points = []
  · rw [if_pos hp]
    exact ⟨fun _ => rfl, fun hne => absurd hp hne⟩
  · rw [if_neg hp]
    exact ⟨fun hc => absurd hc hp, fun _ => h⟩

theorem map_ns_of_map_projNA {l1 l2 : List Marker}
    (h : l1.map projNA = l2.map projNA) :
    l1.map (fun m => m.ns) = l2.map (fun m => m.ns) := by
  have := congrArg (List.map Prod.fst) h
  simpa [List.map_map, projNA, Function.comp] using this

theorem mem_action_of_map_projNA {l1 l2 : List Marker}
    (h : l1.map projNA = l2.map projNA) (m : Marker) (hm : m ∈ l1)
    (hall : ∀ m' ∈ l2, m'.action = MarkerAction.ADD) :
    m.action = MarkerAction.ADD := by
  have h2 := congrArg (List.map Prod.snd) h
  simp only [List.map_map] at h2
  have hmem : m.action ∈ l1.map (Prod.snd ∘ projNA) :=
    List.mem_map.2 ⟨m, hm, rfl⟩
  rw [h2] at hmem
  obtain ⟨m', hm', he⟩ := List.mem_map.1 hmem
  rw [← he]
  exact hall m' hm'

theorem channelEntriesText_total (existence_vector : List ℚ) :
    ∀ (chs : List InputChannel) (i : ℕ),
      i + chs.length ≤ existence_vector.length →
      (channelEntriesText existence_vector i chs).isSome := by
  intro chs
  induction chs with
  | nil => intro i _; simp [channelEntriesText]
  | cons ch rest ih =>
    intro i hlen
    simp only [List.length_cons] at hlen
    have hi : i < existence_vector.length := by omega
    have hrec := ih (i + 1) (by omega)
    cases ht : channelEntriesText existence_vector (i + 1) rest with
    | none => rw [ht] at hrec; exact Bool.noConfusion hrec
    | some tail =>
      simp only [channelEntriesText, Option.bind_eq_bind,
        List.getElem?_eq_getElem hi, Option.some_bind, ht]
      by_cases hlt : existence_vector[i] < 0.00101
      · rw [if_pos hlt]; rfl
      · rw [if_neg hlt]; rfl

theorem existenceText_total (channels_config : List InputChannel)
    (front : ObjectData)
    (hlen : channels_config.length ≤ front.existence_vector.length) :
    (existenceText channels_config front).isSome := by
  unfold existenceText
  have h := channelEntriesText_total front.existence_vector channels_config 0
    (by omega)
  cases ht : channelEntriesText front.existence_vector 0 channels_config with
  | none => rw [ht] at h; exact Bool.noConfusion h
  | some entries => simp [ht]

theorem initChannelMarkers_length (nsStem : List Char) (mtype : MarkerType) :
    ∀ (chs : List InputChannel) (i : ℕ),
      (initChannelMarkers nsStem mtype i chs).length = chs.length := by
  intro chs
  have h := initChannelMarkers_map_ns nsStem mtype chs
  intro i
  have := congrArg List.length (h i)
  simpa using this

theorem drawGroup_total (channels_config : List InputChannel)
    (g : List ObjectData)
    (h : ∀ od ∈ g, 0 ≤ od.channel_id ∧
      od.channel_id < (channels_config.length : ℤ) ∧
      channels_config.length ≤ od.existence_vector.length) :
    (drawGroup channels_config g).isSome := by
  cases g with
  | nil => simp [drawGroup]
  | cons front rest =>
    have htext := existenceText_total channels_config front
      (h front (by simp)).2.2
    cases ht : existenceText channels_config front with
    | none => rw [ht] at htext; exact Bool.noConfusion htext
    | some text =>
      have hrec := drawRecords_total (front :: rest) []
        (initChannelMarkers "detect_boxes_".toList MarkerType.CUBE_LIST 0
          channels_config)
        (initChannelMarkers "association_lines_".toList MarkerType.LINE_LIST 0
          channels_config)
        false
        (by
          intro od hod _
          rw [initChannelMarkers_length]
          exact ⟨(h od hod).1, (h od hod).2.1⟩)
        (by rw [initChannelMarkers_length, initChannelMarkers_length])
      cases hst : drawRecords []
          (initChannelMarkers "detect_boxes_".toList MarkerType.CUBE_LIST 0
            channels_config)
          (initChannelMarkers "association_lines_".toList MarkerType.LINE_LIST 0
            channels_config)
          false (front :: rest) with
      | none => rw [hst] at hrec; exact Bool.noConfusion hrec
      | some st =>
        obtain ⟨tp, db, dl, isA⟩ := st
        simp only [drawGroup, ht, Option.bind_eq_bind, Option.some_bind, hst]
        rfl

theorem drawStep_total (channels_config : List InputChannel)
    (g : List ObjectData)
    (h : ∀ od ∈ g, 0 ≤ od.channel_id ∧
      od.channel_id < (channels_config.length : ℤ) ∧
      channels_config.length ≤ od.existence_vector.length)
    (acc : List Marker) : (drawStep channels_config acc g).isSome := by
  unfold drawStep
  by_cases hg : g = []
  · rw [if_pos hg]; rfl
  · rw [if_neg hg]
    have := drawGroup_total channels_config g h
    cases hd : drawGroup channels_config g with
    | none => rw [hd] at this; exact Bool.noConfusion this
    | some ms => simp [hd]

theorem draw_fold_total (channels_config : List InputChannel) :
    ∀ (groups : List (List ObjectData)),
      (∀ g ∈ groups, ∀ od ∈ g, 0 ≤ od.channel_id ∧
        od.channel_id < (channels_config.length : ℤ) ∧
        channels_config.length ≤ od.existence_vector.length) →
      ∀ acc, (groups.foldlM (drawStep channels_config) acc).isSome := by
  intro groups
  induction groups with
  | nil => intro _ acc; rfl
  | cons g gs ih =>
    intro h acc
    rw [List.foldlM_cons]
    have hstep := drawStep_total channels_config g (h g (by simp)) acc
    cases hs : drawStep channels_config acc g with
    | none => rw [hs] at hstep; exact Bool.noConfusion hstep
    | some acc2 =>
      simp only [Option.bind_eq_bind, Option.some_bind]
      exact ih (fun g' hg' => h g' (List.mem_cons_of_mem g hg')) acc2

/-- Structure of the primitives one non-empty group contributes: first the
per-channel detection boxes (namespaces in channel order), then the
per-channel association lines, then the label marker, then the track-box
marker; every per-channel marker with an empty point list carries the
`DELETE` action while the others keep `ADD`; the label and track-box markers
are dimmed gray exactly when no record of the group is associated. -/
theorem drawGroup_shape (channels_config : List InputChannel)
    (front : ObjectData) (rest : List ObjectData) (ms : List Marker)
    (h : drawGroup channels_config (front :: rest) = some ms) :
    ∃ db dl tm bm,
      ms = db ++ dl ++ [tm, bm] ∧
      db.map (fun m => m.ns) =
        channels_config.map
          (fun ch => "detect_boxes_".toList ++ ch.short_name) ∧
      dl.map (fun m => m.ns) =
        channels_config.map
          (fun ch => "association_lines_".toList ++ ch.short_name) ∧
      (∀ m ∈ db ++ dl,
        (m.points = [] → m.action = MarkerAction.DELETE) ∧
        (m.points ≠ [] → m.action = MarkerAction.ADD)) ∧
      tm.ns = "existence_probability".toList ∧
      bm.ns = "track_boxes".toList ∧
      existenceText channels_config front = some tm.text ∧
      (((front :: rest).any (fun od => od.is_associated)) = true →
        tm.color = { r := 1, g := 1, b := 1, a := 1 } ∧
        bm.color = { r := 1, g := 1, b := 1, a := 0.9 }) ∧
      (((front :: rest).any (fun od => od.is_associated)) = false →
        tm.color = { r := 0.5, g := 0.5, b := 0.5, a := 0.9 } ∧
        bm.color = { r := 0.5, g := 0.5, b := 0.5, a := 0.8 }) := by
  simp only [drawGroup, Option.bind_eq_bind] at h
  cases ht : existenceText channels_config front with
  | none => rw [ht] at h; exact Option.noConfusion h
  | some text =>
    rw [ht] at h
    simp only [Option.some_bind] at h
    cases hst : drawRecords []
        (initChannelMarkers "detect_boxes_".toList MarkerType.CUBE_LIST 0
          channels_config)
        (initChannelMarkers "association_lines_".toList MarkerType.LINE_LIST 0
          channels_config)
        false (front :: rest) with
    | none => rw [hst] at h; exact Option.noConfusion h
    | some st =>
      obtain ⟨tp, db0, dl0, isA⟩ := st
      rw [hst] at h
      simp only [Option.some_bind, Option.some.injEq] at h
      obtain ⟨hdbp, hdlp, hisA⟩ := drawRecords_facts _ _ _ _ _ _ _ _ _ hst
      rw [Bool.false_or] at hisA
      have hdbns : (db0.map tombstone).map (fun m => m.ns) =
          channels_config.map
            (fun ch => "detect_boxes_".toList ++ ch.short_name) := by
        rw [List.map_map,
          show ((fun m : Marker => m.ns) ∘ tombstone) =
            (fun m : Marker => m.ns) from funext (fun m => tombstone_ns m),
          map_ns_of_map_projNA hdbp, initChannelMarkers_map_ns]
      have hdlns : (dl0.map tombstone).map (fun m => m.ns) =
          channels_config.map
            (fun ch => "association_lines_".toList ++ ch.short_name) := by
        rw [List.map_map,
          show ((fun m : Marker => m.ns) ∘ tombstone) =
            (fun m : Marker => m.ns) from funext (fun m => tombstone_ns m),
          map_ns_of_map_projNA hdlp, initChannelMarkers_map_ns]
      have hact : ∀ m ∈ db0.map tombstone ++ dl0.map tombstone,
          (m.points = [] → m.action = MarkerAction.DELETE) ∧
          (m.points ≠ [] → m.action = MarkerAction.ADD) := by
        intro m hm
        rcases List.mem_append.1 hm with hm' | hm'
        · obtain ⟨m0, hm0, he⟩ := List.mem_map.1 hm'
          have hadd : m0.action = MarkerAction.ADD :=
            mem_action_of_map_projNA hdbp m0 hm0
              (fun m' hmem => (initChannelMarkers_mem _ _ _ _ m' hmem).1)
          rw [← he]
          exact tombstone_action_of_add m0 hadd
        · obtain ⟨m0, hm0, he⟩ := List.mem_map.1 hm'
          have hadd : m0.action = MarkerAction.ADD :=
            mem_action_of_map_projNA hdlp m0 hm0
              (fun m' hmem => (initChannelMarkers_mem _ _ _ _ m' hmem).1)
          rw [← he]
          exact tombstone_action_of_add m0 hadd
      cases hA : isA with
      | true =>
        rw [hA] at h
        simp only [if_pos rfl, if_true] at h
        refine ⟨db0.map tombstone, dl0.map tombstone, _, _,
          by rw [← h, List.append_assoc], hdbns, hdlns, hact, rfl, rfl,
          rfl, ?_, ?_⟩
        · intro _; exact ⟨rfl, rfl⟩
        · intro hany
          rw [hA] at hisA
          exact absurd (hisA ▸ hany) (by simp)
      | false =>
        rw [hA] at h
        simp only [Bool.false_eq_true, if_false] at h
        refine ⟨db0.map tombstone, dl0.map tombstone, _, _,
          by rw [← h, List.append_assoc], hdbns, hdlns, hact, rfl, rfl,
          rfl, ?_, ?_⟩
        · intro hany
          rw [hA] at hisA
          exact absurd (hisA ▸ hany) (by simp)
        · intro _; exact ⟨rfl, rfl⟩

theorem collectRecords_empty_assign (message_time : ℤ)
    (detected_objects : DynamicObjectList) :
    ∀ (trackers : List Tracker) (idx : ℤ),
      ∃ recs, collectRecords message_time detected_objects (fun _ => none) idx
          trackers = some recs ∧
        recs.length = trackers.length ∧
        ∀ od ∈ recs, od.is_associated = false ∧
          od.detection_point = od.tracker_point := by
  intro trackers
  induction trackers with
  | nil => intro idx; exact ⟨[], rfl, rfl, by simp⟩
  | cons tr rest ih =>
    intro idx
    obtain ⟨recs, hrecs, hlen, hprop⟩ := ih (idx + 1)
    refine ⟨unassociatedRecord message_time detected_objects tr :: recs,
      ?_, by simp [hlen], ?_⟩
    · simp only [collectRecords, collectOne, Option.bind_eq_bind,
        Option.some_bind, hrecs]
      rfl
    · intro od hod
      rcases List.mem_cons.1 hod with hod' | hod'
      · rw [hod']
        exact ⟨rfl, rfl⟩
      · exact hprop od hod'

theorem revSortUuid_compliant : SortCompliant revSortUuid := by
  intro l
  obtain ⟨hperm, hsorted⟩ := insSortUuid_compliant l.reverse
  exact ⟨hperm.trans (List.reverse_perm l), hsorted⟩

/-- C3 (counterexample): the claim asserts that `process` stable-sorts, i.e.
records with equal identity retain their insertion order inside their group.
The code calls `std::sort`, which is not required to be stable: the compliant
implementation `revSortUuid` (insertion sort of the reversed list) satisfies
every guarantee the code relies on, yet groups the two equal-identity records
in the order channel 1, channel 0 — the reverse of their accumulation
order. -/
theorem C3_counterexample :
    SortCompliant revSortUuid ∧
    c3State.object_data_list.map (fun od => od.channel_id) = [0, 1] ∧
    (∀ od ∈ c3State.object_data_list, od.uuid = 5) ∧
    ((c3State.process revSortUuid).object_data_groups).map
      (fun g => g.map (fun od => od.channel_id)) = [[1, 0]] := by
  refine ⟨revSortUuid_compliant, rfl, by decide, ?_⟩
  decide

/-- C3 (amended): `process` orders the accumulated records by the 128-bit
identity: the sorted list is a permutation of the accumulated records,
pairwise non-decreasing in identity (the comparator reads only `uuid`, never
the display string), and the rebuilt groups flatten back to exactly that
sorted list; the relative order of equal-identity records is whatever the
(not necessarily stable) `std::sort` implementation produced. -/
theorem C3_amended (sortFn : List ObjectData → List ObjectData)
    (hf : SortCompliant sortFn) (s : TrackerObjectDebugger)
    (hinit : s.is_initialized = true) (hne : s.object_data_list ≠ []) :
    sortedByUuid ((s.process sortFn).object_data_list) ∧
    ((s.process sortFn).object_data_list).Perm s.object_data_list ∧
    ((s.process sortFn).object_data_groups).flatten =
      (s.process sortFn).object_data_list := by
  rw [process_of_ne_nil sortFn s hinit hne]
  obtain ⟨hperm, hsorted⟩ := hf s.object_data_list
  have hsne : sortFn s.object_data_list ≠ [] := by
    intro h
    have h2 := hperm
    rw [h] at h2
    exact hne (List.Perm.eq_nil h2.symm)
  exact ⟨hsorted, hperm, (finalizeGroups_facts _ hsne hsorted).2.2.2⟩

/-- C3 (witness): the amended claim evaluated with the concrete compliant
sort `insSortUuid` on `c3State`. -/
theorem C3_amended_witness :
    c3State.is_initialized = true ∧ c3State.object_data_list ≠ [] ∧
    (sortedByUuid ((c3State.process insSortUuid).object_data_list) ∧
      ((c3State.process insSortUuid).object_data_list).Perm
        c3State.object_data_list ∧
      ((c3State.process insSortUuid).object_data_groups).flatten =
        (c3State.process insSortUuid).object_data_list) :=
  ⟨rfl, by decide,
    C3_amended insSortUuid insSortUuid_compliant c3State rfl (by decide)⟩

/-- C4: after `process` runs with any `std::sort`-compliant sort on an
initialized debugger with a non-empty accumulation list, every produced group
is non-empty, all records of a group share one identity, groups appear in
strictly ascending identity order, the groups jointly contain exactly the
accumulated records, and each group consists of precisely the accumulated
records carrying its identity (as a permutation). -/
theorem C4_process_groups (sortFn : List ObjectData → List ObjectData)
    (hf : SortCompliant sortFn) (s : TrackerObjectDebugger)
    (hinit : s.is_initialized = true) (hne : s.object_data_list ≠ []) :
    (∀ g ∈ (s.process sortFn).object_data_groups, g ≠ []) ∧
    (∀ g ∈ (s.process sortFn).object_data_groups,
      ∀ a ∈ g, ∀ b ∈ g, a.uuid = b.uuid) ∧
    List.Pairwise GroupLt (s.process sortFn).object_data_groups ∧
    ((s.process sortFn).object_data_groups).flatten.Perm
      s.object_data_list ∧
    (∀ g ∈ (s.process sortFn).object_data_groups, ∀ a ∈ g,
      g.Perm (s.object_data_list.filter (fun od => od.uuid == a.uuid))) := by
  rw [process_of_ne_nil sortFn s hinit hne]
  obtain ⟨hperm, hsorted⟩ := hf s.object_data_list
  have hsne : sortFn s.object_data_list ≠ [] := by
    intro h
    have h2 := hperm
    rw [h] at h2
    exact hne (List.Perm.eq_nil h2.symm)
  obtain ⟨h1, h2, h3, h4⟩ := finalizeGroups_facts _ hsne hsorted
  refine ⟨h1, ?_, h3, ?_, ?_⟩
  · intro g hg a ha b hb
    obtain ⟨u, hu⟩ := h2 g hg
    rw [hu a ha, hu b hb]
  · rw [h4]
    exact hperm
  · intro g hg a ha
    have hfe := groups_eq_filter_flatten _ h2 h3 g hg a ha
    rw [h4] at hfe
    rw [hfe]
    exact List.Perm.filter _ hperm

/-- C4 (witness): the grouping invariants evaluated on the concrete state
`c3State` with the concrete compliant sort `insSortUuid`. -/
theorem C4_process_groups_witness :
    c3State.is_initialized = true ∧ c3State.object_data_list ≠ [] ∧
    ((∀ g ∈ (c3State.process insSortUuid).object_data_groups, g ≠ []) ∧
      (∀ g ∈ (c3State.process insSortUuid).object_data_groups,
        ∀ a ∈ g, ∀ b ∈ g, a.uuid = b.uuid) ∧
      List.Pairwise GroupLt (c3State.process insSortUuid).object_data_groups ∧
      ((c3State.process insSortUuid).object_data_groups).flatten.Perm
        c3State.object_data_list ∧
      (∀ g ∈ (c3State.process insSortUuid).object_data_groups, ∀ a ∈ g,
        g.Perm (c3State.object_data_list.filter
          (fun od => od.uuid == a.uuid)))) :=
  ⟨rfl, by decide,
    C4_process_groups insSortUuid insSortUuid_compliant c3State rfl (by decide)⟩

/-- C5: collecting channel B then channel A and finalizing yields the same
groups — viewed as multisets of records, in the same (identity-sorted) group
order — as collecting A then B, for any `std::sort`-compliant implementations
used by the two runs; when a collection fails on an out-of-range association
index, it fails in both orders. -/
theorem C5_order_independent (f1 f2 : List ObjectData → List ObjectData)
    (hf1 : SortCompliant f1) (hf2 : SortCompliant f2)
    (s : TrackerObjectDebugger) (message_time : ℤ)
    (tA : List Tracker) (dA : DynamicObjectList) (aA : ℤ → Option ℤ)
    (tB : List Tracker) (dB : DynamicObjectList) (aB : ℤ → Option ℤ) :
    ((s.collect message_time tA dA aA).bind
        (fun s1 => s1.collect message_time tB dB aB)).map
      (fun t => ((t.process f1).object_data_groups).map
        (fun g => Multiset.ofList g)) =
    ((s.collect message_time tB dB aB).bind
        (fun s1 => s1.collect message_time tA dA aA)).map
      (fun t => ((t.process f2).object_data_groups).map
        (fun g => Multiset.ofList g)) := by
  cases hA : collectRecords message_time dA aA 0 tA with
  | none =>
    cases hB : collectRecords message_time dB aB 0 tB with
    | none => simp [collect_eq, hA, hB]
    | some recsB => simp [collect_eq, hA, hB]
  | some recsA =>
    cases hB : collectRecords message_time dB aB 0 tB with
    | none => simp [collect_eq, hA, hB]
    | some recsB =>
      simp only [collect_eq, hA, hB, Option.map_some', Option.bind_eq_bind,
        Option.some_bind]
      refine congrArg some ?_
      refine process_groups_ms_of_perm f1 f2 hf1 hf2 _ _ ?_ rfl rfl rfl
      show ((s.object_data_list ++ recsA) ++ recsB).Perm
        ((s.object_data_list ++ recsB) ++ recsA)
      rw [List.append_assoc, List.append_assoc]
      exact List.Perm.append_left _ List.perm_append_comm

/-- C5 (witness): order-independence evaluated on a fresh debugger with the
concrete channel-0 and channel-1 collections and `insSortUuid` for both
runs. -/
theorem C5_order_independent_witness :
    SortCompliant insSortUuid ∧
    ((demoState.collect 0 [demoTrackerA] demoDetections demoAssign).bind
        (fun s1 => s1.collect 0 [demoTrackerA] demoDetections2
          (fun _ => none))).map
      (fun t => ((t.process insSortUuid).object_data_groups).map
        (fun g => Multiset.ofList g)) =
    ((demoState.collect 0 [demoTrackerA] demoDetections2 (fun _ => none)).bind
        (fun s1 => s1.collect 0 [demoTrackerA] demoDetections
          demoAssign)).map
      (fun t => ((t.process insSortUuid).object_data_groups).map
        (fun g => Multiset.ofList g)) :=
  ⟨insSortUuid_compliant,
    C5_order_independent insSortUuid insSortUuid insSortUuid_compliant
      insSortUuid_compliant demoState 0 [demoTrackerA] demoDetections
      demoAssign [demoTrackerA] demoDetections2 (fun _ => none)⟩

/-- C6: collecting a non-empty tracker list with the empty association map
appends exactly one record per tracker, every one with `is_associated =
false` and `detection_point` equal to `tracker_point`. -/
theorem C6_empty_assignment (s : TrackerObjectDebugger) (message_time : ℤ)
    (list_tracker : List Tracker) (detected_objects : DynamicObjectList)
    (hne : list_tracker ≠ []) :
    ∃ s', s.collect message_time list_tracker detected_objects
        (fun _ => none) = some s' ∧
      ∃ recs, s'.object_data_list = s.object_data_list ++ recs ∧
        recs ≠ [] ∧
        ∀ od ∈ recs, od.is_associated = false ∧
          od.detection_point = od.tracker_point := by
  obtain ⟨recs, hrecs, hlen, hprop⟩ :=
    collectRecords_empty_assign message_time detected_objects list_tracker 0
  refine ⟨{ s with
      is_initialized := true
      message_time := message_time
      object_data_list := s.object_data_list ++ recs }, ?_, recs, rfl, ?_,
    hprop⟩
  · rw [collect_eq, hrecs]
    rfl
  · intro h
    rw [h] at hlen
    exact hne (List.length_eq_zero.1 hlen.symm)

/-- C6 (witness): the empty-association collection evaluated on a fresh
debugger and one concrete tracker. -/
theorem C6_empty_assignment_witness :
    ([demoTrackerA] : List Tracker) ≠ [] ∧
    (∃ s', demoState.collect 0 [demoTrackerA] demoDetections
        (fun _ => none) = some s' ∧
      ∃ recs, s'.object_data_list = demoState.object_data_list ++ recs ∧
        recs ≠ [] ∧
        ∀ od ∈ recs, od.is_associated = false ∧
          od.detection_point = od.tracker_point) :=
  ⟨by simp,
    C6_empty_assignment demoState 0 [demoTrackerA] demoDetections (by simp)⟩

/-- C7: in the primitives of a rendered group, the label and track-box
markers (the last two primitives) are recolored to dimmed gray exactly when
no record of the group is associated, and keep the default white colors when
at least one record is associated. -/
theorem C7_dimming (channels_config : List InputChannel) (front : ObjectData)
    (rest : List ObjectData) (ms : List Marker)
    (h : drawGroup channels_config (front :: rest) = some ms) :
    ∃ pre tm bm, ms = pre ++ [tm, bm] ∧
      tm.ns = "existence_probability".toList ∧
      bm.ns = "track_boxes".toList ∧
      ((∀ od ∈ front :: rest, od.is_associated = false) →
        tm.color = { r := 0.5, g := 0.5, b := 0.5, a := 0.9 } ∧
        bm.color = { r := 0.5, g := 0.5, b := 0.5, a := 0.8 }) ∧
      ((∃ od ∈ front :: rest, od.is_associated = true) →
        tm.color = { r := 1, g := 1, b := 1, a := 1 } ∧
        bm.color = { r := 1, g := 1, b := 1, a := 0.9 }) := by
  obtain ⟨db, dl, tm, bm, hms, _, _, _, htm, hbm, _, htrue, hfalse⟩ :=
    drawGroup_shape _ _ _ _ h
  refine ⟨db ++ dl, tm, bm, hms, htm, hbm, ?_, ?_⟩
  · intro hall
    refine hfalse ?_
    rw [List.any_eq_false]
    intro od hod
    rw [hall od hod]
    simp
  · intro hex
    obtain ⟨od, hod, hassoc⟩ := hex
    exact htrue (List.any_eq_true.2 ⟨od, hod, hassoc⟩)

/-- C7 (witness): the dimming rule evaluated on one concrete associated
group. -/
theorem C7_dimming_witness :
    ∃ ms, drawGroup demoChannels [demoRecord] = some ms ∧
      ∃ pre tm bm, ms = pre ++ [tm, bm] ∧
        tm.ns = "existence_probability".toList ∧
        bm.ns = "track_boxes".toList ∧
        ((∀ od ∈ [demoRecord], od.is_associated = false) →
          tm.color = { r := 0.5, g := 0.5, b := 0.5, a := 0.9 } ∧
          bm.color = { r := 0.5, g := 0.5, b := 0.5, a := 0.8 }) ∧
        ((∃ od ∈ [demoRecord], od.is_associated = true) →
          tm.color = { r := 1, g := 1, b := 1, a := 1 } ∧
          bm.color = { r := 1, g := 1, b := 1, a := 0.9 }) := by
  have hs : (drawGroup demoChannels [demoRecord]).isSome :=
    drawGroup_total demoChannels [demoRecord] (by decide)
  cases hd : drawGroup demoChannels [demoRecord] with
  | none => rw [hd] at hs; exact Bool.noConfusion hs
  | some ms => exact ⟨ms, rfl, C7_dimming demoChannels demoRecord [] ms hd⟩

/-- C8: for a rendered group, the output contains one detection-box and one
association-line primitive for every configured channel (in channel order,
with the channel's namespace), even when the primitive has zero points; a
zero-point primitive carries the `DELETE` action and a non-empty one keeps
`ADD`. -/
theorem C8_channel_tombstones (channels_config : List InputChannel)
    (front : ObjectData) (rest : List ObjectData) (ms : List Marker)
    (h : drawGroup channels_config (front :: rest) = some ms) :
    ∃ db dl tm bm, ms = db ++ dl ++ [tm, bm] ∧
      db.length = channels_config.length ∧
      dl.length = channels_config.length ∧
      db.map (fun m => m.ns) =
        channels_config.map
          (fun ch => "detect_boxes_".toList ++ ch.short_name) ∧
      dl.map (fun m => m.ns) =
        channels_config.map
          (fun ch => "association_lines_".toList ++ ch.short_name) ∧
      ∀ m ∈ db ++ dl,
        (m.points = [] → m.action = MarkerAction.DELETE) ∧
        (m.points ≠ [] → m.action = MarkerAction.ADD) := by
  obtain ⟨db, dl, tm, bm, hms, hdb, hdl, hact, _, _, _, _, _⟩ :=
    drawGroup_shape _ _ _ _ h
  refine ⟨db, dl, tm, bm, hms, ?_, ?_, hdb, hdl, hact⟩
  · have := congrArg List.length hdb
    simpa using this
  · have := congrArg List.length hdl
    simpa using this

/-- C8 (witness): the channel tombstone rule evaluated on one concrete
group. -/
theorem C8_channel_tombstones_witness :
    ∃ ms, drawGroup demoChannels [demoRecord] = some ms ∧
      ∃ db dl tm bm, ms = db ++ dl ++ [tm, bm] ∧
        db.length = demoChannels.length ∧
        dl.length = demoChannels.length ∧
        db.map (fun m => m.ns) =
          demoChannels.map
            (fun ch => "detect_boxes_".toList ++ ch.short_name) ∧
        dl.map (fun m => m.ns) =
          demoChannels.map
            (fun ch => "association_lines_".toList ++ ch.short_name) ∧
        ∀ m ∈ db ++ dl,
          (m.points = [] → m.action = MarkerAction.DELETE) ∧
          (m.points ≠ [] → m.action = MarkerAction.ADD) := by
  have hs : (drawGroup demoChannels [demoRecord]).isSome :=
    drawGroup_total demoChannels [demoRecord] (by decide)
  cases hd : drawGroup demoChannels [demoRecord] with
  | none => rw [hd] at hs; exact Bool.noConfusion hs
  | some ms =>
    exact ⟨ms, rfl, C8_channel_tombstones demoChannels demoRecord [] ms hd⟩

/-- C9: in the generated label text, channel `k` contributes an entry exactly
when its existence-vector value is at least `0.00101`, and the entry is the
channel's `short_name` followed by the integer percentage; values strictly
below the threshold contribute nothing. -/
theorem C9_threshold (channels_config : List InputChannel)
    (front : ObjectData) (t : List Char)
    (h : existenceText channels_config front = some t) :
    ∃ es, entryStrings front.existence_vector 0 channels_config = some es ∧
      channelEntriesText front.existence_vector 0 channels_config =
        some ((es.map (fun e => e ++ [':'])).flatten) ∧
      es = (List.range channels_config.length).filterMap (fun k =>
        (front.existence_vector[k]?).bind (fun p =>
          (channels_config[k]?).bind (fun ch =>
            if p < 0.00101 then none
            else some (ch.short_name
              ++ intChars (cppTruncToInt (p * 100)))))) := by
  unfold existenceText at h
  cases hc : channelEntriesText front.existence_vector 0 channels_config with
  | none => rw [hc] at h; exact Option.noConfusion h
  | some s0 =>
    have hbr := channelEntriesText_eq_entryStrings front.existence_vector
      channels_config 0
    rw [hc] at hbr
    cases hes : entryStrings front.existence_vector 0 channels_config with
    | none => rw [hes] at hbr; exact Option.noConfusion hbr
    | some es =>
      rw [hes] at hbr
      simp only [Option.map_some', Option.some.injEq] at hbr
      refine ⟨es, rfl, ?_, ?_⟩
      · exact congrArg some hbr
      · have hfm := entryStrings_eq_filterMap front.existence_vector
          channels_config 0 es hes
        rw [hfm]
        refine filterMap_congr_mem _ _ _ ?_
        intro k _
        rw [Nat.zero_add]

/-- C9 (witness): the threshold rule evaluated on the concrete record (one
channel at probability one half, above the threshold). -/
theorem C9_threshold_witness :
    ∃ t, existenceText demoChannels demoRecord = some t ∧
      ∃ es, entryStrings demoRecord.existence_vector 0 demoChannels =
          some es ∧
        channelEntriesText demoRecord.existence_vector 0 demoChannels =
          some ((es.map (fun e => e ++ [':'])).flatten) ∧
        es = (List.range demoChannels.length).filterMap (fun k =>
          (demoRecord.existence_vector[k]?).bind (fun p =>
            (demoChannels[k]?).bind (fun ch =>
              if p < 0.00101 then none
              else some (ch.short_name
                ++ intChars (cppTruncToInt (p * 100)))))) := by
  have hs : (existenceText demoChannels demoRecord).isSome :=
    existenceText_total demoChannels demoRecord (by decide)
  cases hd : existenceText demoChannels demoRecord with
  | none => rw [hd] at hs; exact Bool.noConfusion hs
  | some t => exact ⟨t, rfl, C9_threshold demoChannels demoRecord t hd⟩

/-- C10: when every record of every group has its channel id inside
`[0, channel count)` and an existence vector at least as long as the channel
configuration, `draw` succeeds: every checked or unchecked container access
it performs is in range. -/
theorem C10_draw_total (channels_config : List InputChannel)
    (object_data_groups : List (List ObjectData))
    (h : ∀ g ∈ object_data_groups, ∀ od ∈ g,
      0 ≤ od.channel_id ∧ od.channel_id < (channels_config.length : ℤ) ∧
      channels_config.length ≤ od.existence_vector.length) :
    (TrackerObjectDebugger.draw channels_config object_data_groups).isSome :=
  draw_fold_total channels_config object_data_groups h []

/-- C10 (witness): totality of `draw` on a concrete in-range group. -/
theorem C10_draw_total_witness :
    (∀ g ∈ [[demoRecord]], ∀ od ∈ g,
      0 ≤ od.channel_id ∧ od.channel_id < (demoChannels.length : ℤ) ∧
      demoChannels.length ≤ od.existence_vector.length) ∧
    (TrackerObjectDebugger.draw demoChannels [[demoRecord]]).isSome :=
  ⟨by decide, C10_draw_total demoChannels [[demoRecord]] (by decide)⟩

/-- C2 (counterexample): at probability 0.999 the code's label text uses the
truncated percentage 99 while the claim's `round` formula demands 100, so the
generated text differs from the claimed one. -/
theorem C2_counterexample :
    existenceText demoChannels c2Front = some c2CodeText ∧
    specLabelText demoChannels c2Front = some c2SpecText ∧
    c2CodeText ≠ c2SpecText := by
  have htr : cppTruncToInt ((999 : ℚ) / 10) = 99 := by
    norm_num [cppTruncToInt]
  have hro : round ((999 : ℚ) / 10) = 100 := by
    norm_num [round_eq]
  have h99 : intChars (cppTruncToInt ((999 : ℚ) / 10)) = ['9', '9'] := by
    rw [htr]; decide
  have h100 : intChars (round ((999 : ℚ) / 10)) = ['1', '0', '0'] := by
    rw [hro]; decide
  refine ⟨?_, ?_, by decide⟩
  · norm_num [existenceText, channelEntriesText, c2Front, demoChannels,
      c2CodeText, h99, ite_cons_eq_nil]
  · norm_num [specLabelText, specEntryStringsRounded, c2Front, demoChannels,
      c2SpecText, h100]

/-- C2 (amended): the label text is `"total:"` followed by the truncated (not
rounded) integer percentage of the total probability and a newline; then, when
at least one channel passes the threshold, the per-channel entries (short name
followed by the truncated integer percentage) joined by single `":"`
separators and a newline; when no channel passes, the character removed by the
trailing `pop_back` is the total line's newline, so that line and the entries
line collapse into one; finally the first six characters of the identity
display string. -/
theorem C2_amended (channels_config : List InputChannel) (front : ObjectData)
    (t : List Char) (h : existenceText channels_config front = some t) :
    ∃ es, entryStrings front.existence_vector 0 channels_config = some es ∧
      (es ≠ [] →
        t = "total:".toList
          ++ intChars (cppTruncToInt (front.total_existence_probability * 100))
          ++ ['\n'] ++ joinColon es ++ ['\n'] ++ front.uuid_str.take 6) ∧
      (es = [] →
        t = "total:".toList
          ++ intChars (cppTruncToInt (front.total_existence_probability * 100))
          ++ ['\n'] ++ front.uuid_str.take 6) := by
  obtain ⟨es, hes, h1, h2⟩ := existenceText_eq channels_config front t h
  exact ⟨es, hes, h2, h1⟩

/-- C2 (witness): the amended label-text formula evaluated on the concrete
record. -/
theorem C2_amended_witness :
    ∃ t, existenceText demoChannels demoRecord = some t ∧
      ∃ es, entryStrings demoRecord.existence_vector 0 demoChannels =
          some es ∧
        (es ≠ [] →
          t = "total:".toList
            ++ intChars
              (cppTruncToInt (demoRecord.total_existence_probability * 100))
            ++ ['\n'] ++ joinColon es ++ ['\n']
            ++ demoRecord.uuid_str.take 6) ∧
        (es = [] →
          t = "total:".toList
            ++ intChars
              (cppTruncToInt (demoRecord.total_existence_probability * 100))
            ++ ['\n'] ++ demoRecord.uuid_str.take 6) := by
  have hs : (existenceText demoChannels demoRecord).isSome :=
    existenceText_total demoChannels demoRecord (by decide)
  cases hd : existenceText demoChannels demoRecord with
  | none => rw [hd] at hs; exact Bool.noConfusion hs
  | some t => exact ⟨t, rfl, C2_amended demoChannels demoRecord t hd⟩

/-- C1 (counterexample): the claim says a render query issued after `reset()`
and before any new `collect()` yields an empty primitive set.  In the code
`reset()` clears only `object_data_list_` and `markers_`, not
`object_data_groups_` and not `is_initialized_`, so the query re-renders the
previously finalized groups: the result is neither a failure nor the empty
primitive list. -/
theorem C1_counterexample : c1AfterReset ≠ none ∧ c1AfterReset ≠ some [] := by
  have h50 : intChars 50 = ['5', '0'] := by decide
  have hc0 : channelColor 0 = { r := 0, g := 0, b := 1, a := 9/10 } := by
    norm_num [channelColor, color_array, Matrix.cons_val_zero]
  norm_num [c1AfterReset, demoState, demoTrackerA, demoChannels,
    demoDetections, demoAssign, TrackerObjectDebugger.init,
    TrackerObjectDebugger.collect, TrackerObjectDebugger.process,
    TrackerObjectDebugger.reset, TrackerObjectDebugger.getMessage,
    TrackerObjectDebugger.draw, drawStep, collectRecords, collectOne,
    insSortUuid, finalizeGroups, chunkCore, drawGroup, drawRecords,
    pushDetectPoint, pushLinePoints, existenceText, channelEntriesText,
    intChars, cppTruncToInt, initChannelMarkers, tombstone, baseMarker,
    listUpdateAt, listAt, h50, hc0, ite_cons_eq_nil, List.insertionSort,
    List.orderedInsert, List.foldlM, Option.bind]
  exact ⟨fun h => Option.noConfusion h, fun h => List.noConfusion h⟩

/-- C1 (amended): `reset()` clears the accumulated observation list and the
internal marker cache but neither the finalized identity groups nor the
initialized flag, so a render query issued after `reset()` returns exactly
what it returned before the reset (re-rendering the previously finalized
groups); a render query issued before any `collect()` has ever run since
construction leaves the caller's (empty) array untouched. -/
theorem C1_amended :
    (∀ (s : TrackerObjectDebugger) (marker_array : List Marker),
      (s.reset).object_data_list = [] ∧
      (s.reset).markers = [] ∧
      (s.reset).object_data_groups = s.object_data_groups ∧
      (s.reset).is_initialized = s.is_initialized ∧
      (s.reset).getMessage marker_array = s.getMessage marker_array) ∧
    (∀ (frame_id : List Char) (channels_config : List InputChannel)
        (marker_array : List Marker),
      (TrackerObjectDebugger.init frame_id channels_config).getMessage
        marker_array = some marker_array) :=
  ⟨fun _ _ => ⟨rfl, rfl, rfl, rfl, rfl⟩, fun _ _ _ => rfl⟩
